import Mathlib

/-!
Shallow embedding of the xCell mapper layer (density mappers 2MPZ/CatWISE,
weak-lensing shear mappers DES Y1 / HSC DR1, and the CIB Lenz beam), with
theorems checking the natural-language specification against the code.

Numeric model: catalog columns and sky maps are rationals (exact arithmetic
standing in for numpy float64); the constant `np.pi` and the `log`/`exp`
beam computation are modelled over the reals.  A catalog position column
(ra, dec) enters the embedding only through its pixel index: the healpy
`ang2pix` call is an external utility, so a catalog's positions are carried
as the parallel list `pix` of pixel indices it would produce.
-/

namespace XCell

/-- Model of `np.mean` of a list: sum divided by length (0 for the empty list,
where numpy would give NaN). -/
def npmean (l : List ℚ) : ℚ := l.sum / l.length

/-- Model of `np.average(a, weights=w)`: weighted sum divided by total weight. -/
def npaverage (a w : List ℚ) : ℚ := (List.zipWith (· * ·) a w).sum / w.sum

/-- Modelled from the spec: `get_map_from_points` (in `xcell.mappers.utils`,
an external shared-utility collaborator, not under the specified sources) is
"point-to-pixel map accumulation": given the pixel indices of the catalog
rows and per-row weights, it returns the dense map whose pixel `p` holds the
sum of the weights of the rows falling in `p`. -/
def get_map_from_points (npix : ℕ) (pix : List ℕ) (w : List ℚ) : List ℚ :=
  (List.range npix).map fun p =>
    (((pix.zip w).filter fun q => q.1 == p).map Prod.snd).sum

/-- Model of `hp.nside2npix`: number of HEALPix pixels at resolution `nside`. -/
def nside2npix (nside : ℕ) : ℕ := 12 * nside ^ 2

/-- The unweighted count map of catalog positions
(`get_map_from_points(cat, nside, ra_name=…, dec_name=…)` with no `w`). -/
def count_map (npix : ℕ) (pix : List ℕ) : List ℚ :=
  get_map_from_points npix pix (List.replicate pix.length 1)

/-- Body of `Mapper2MPZ.get_signal_map` / `MapperCatWISE.get_signal_map`
(both mappers share this code verbatim): start from `d = np.zeros(npix)`,
set `d[goodpix] = nmap[goodpix]/(mean_n*mask[goodpix]) - 1` on the pixels
with `mask > 0`, where `mean_n = np.average(nmap, weights=mask)`. -/
def density_delta_map (npix : ℕ) (nmap mask : List ℚ) : List ℚ :=
  let mean_n := npaverage nmap mask
  (List.range npix).map fun p =>
    if 0 < mask.getD p 0 then nmap.getD p 0 / (mean_n * mask.getD p 0) - 1
    else 0

/-- The `get_signal_map` of the catalog-based density mappers: builds the count
map of the catalog positions, forms the density contrast and returns it as a
single-element list. -/
def density_get_signal_map (nside : ℕ) (pix : List ℕ) (mask : List ℚ) :
    List (List ℚ) :=
  [density_delta_map (nside2npix nside) (count_map (nside2npix nside) pix) mask]

/-- A row of the 2MPZ catalog (the columns `_bin_z` and `_get_specsample`
read). -/
structure Row2MPZ where
  zphoto : ℚ
  zspec : ℚ
  deriving DecidableEq, Inhabited

/-- Model of `Mapper2MPZ._bin_z`: keep the rows with
`ZPHOTO > z_edges[0]` and `ZPHOTO <= z_edges[1]`. -/
def bin_z (z_edges : ℚ × ℚ) (cat : List Row2MPZ) : List Row2MPZ :=
  cat.filter fun r => decide (z_edges.1 < r.zphoto) && decide (r.zphoto ≤ z_edges.2)

/-- Model of `Mapper2MPZ._get_coords`: translate the `coordinates` configuration value
(after its `'G'` default) into the (lon, lat) column names, or raise
(`NotImplementedError`) for an unknown value. -/
def get_coords (coords : String) : Except String (String × String) :=
  if coords = "G" then Except.ok ("L", "B")
  else if coords = "C" then Except.ok ("SUPRA", "SUPDEC")
  else Except.error ("Unknown coordinates " ++ coords)

/-- A row of the DES Y1 metacal shear catalog after `_load_catalog` (the
columns that `get_catalog` and its calibration steps read). -/
structure DESRow where
  e1 : ℚ
  e2 : ℚ
  psf_e1 : ℚ
  psf_e2 : ℚ
  R11 : ℚ
  R12 : ℚ
  R21 : ℚ
  R22 : ℚ
  zbin_mcal : ℤ
  zbin_mcal_1p : ℤ
  zbin_mcal_1m : ℤ
  zbin_mcal_2p : ℤ
  zbin_mcal_2m : ℤ
  deriving DecidableEq, Inhabited

/-- A 2×2 matrix of rationals; the calibration only ever handles 2×2
response matrices. -/
structure Mat2 where
  a11 : ℚ
  a12 : ℚ
  a21 : ℚ
  a22 : ℚ
  deriving DecidableEq, Inhabited

/-- Entrywise sum of 2×2 matrices (`Rg + self.Rs`). -/
def Mat2.add (A B : Mat2) : Mat2 :=
  ⟨A.a11 + B.a11, A.a12 + B.a12, A.a21 + B.a21, A.a22 + B.a22⟩

/-- Model of `MapperDESY1wl._set_mode`: translate a mode into the ellipticity column
names (plus the mode itself), or raise (`ValueError`) for an unknown mode. -/
def DES_set_mode (mode : String) : Except String (String × String × String) :=
  if mode = "shear" then Except.ok ("e1", "e2", "shear")
  else if mode = "PSF" then Except.ok ("psf_e1", "psf_e2", "PSF")
  else Except.error ("Unknown mode " ++ mode)

/-- Column lookup on a DES row by ellipticity column name (`cat_data[e1f]`
for the flags `_set_mode` can produce). -/
def DES_col (f : String) (r : DESRow) : ℚ :=
  if f = "e1" then r.e1
  else if f = "e2" then r.e2
  else if f = "psf_e1" then r.psf_e1
  else r.psf_e2

/-- Model of `MapperDESY1wl._get_Rs`: the selection-response matrix, from the four
bin-membership perturbation subsamples of the loaded (pre-selection)
catalog, as symmetric finite differences of mean ellipticity divided by the
fixed step `0.02`. -/
def DES_get_Rs (cat : List DESRow) (zbin : ℤ) : Mat2 :=
  let data_1p := cat.filter fun r => r.zbin_mcal_1p == zbin
  let data_1m := cat.filter fun r => r.zbin_mcal_1m == zbin
  let data_2p := cat.filter fun r => r.zbin_mcal_2p == zbin
  let data_2m := cat.filter fun r => r.zbin_mcal_2m == zbin
  { a11 := (npmean (data_1p.map DESRow.e1) - npmean (data_1m.map DESRow.e1))
             / 0.02
    a12 := (npmean (data_2p.map DESRow.e1) - npmean (data_2m.map DESRow.e1))
             / 0.02
    a21 := (npmean (data_1p.map DESRow.e2) - npmean (data_1m.map DESRow.e2))
             / 0.02
    a22 := (npmean (data_2p.map DESRow.e2) - npmean (data_2m.map DESRow.e2))
             / 0.02 }

/-- Model of `MapperDESY1wl._remove_additive_bias`: subtract the catalog's own mean
`e1` and `e2` from every row. -/
def DES_remove_additive_bias (cat : List DESRow) : List DESRow :=
  let m1 := npmean (cat.map DESRow.e1)
  let m2 := npmean (cat.map DESRow.e2)
  cat.map fun r => { r with e1 := r.e1 - m1, e2 := r.e2 - m2 }

/-- The mean-response matrix `Rg` of `_remove_multiplicative_bias`. -/
def DES_Rg (cat : List DESRow) : Mat2 :=
  { a11 := npmean (cat.map DESRow.R11)
    a12 := npmean (cat.map DESRow.R12)
    a21 := npmean (cat.map DESRow.R21)
    a22 := npmean (cat.map DESRow.R22) }

/-- The factor `one_plus_m = np.sum(np.diag(Rg + Rs)) * 0.5` of
`_remove_multiplicative_bias`. -/
def DES_one_plus_m (Rs : Mat2) (cat : List DESRow) : ℚ :=
  let Rmat := (DES_Rg cat).add Rs
  (Rmat.a11 + Rmat.a22) * 0.5

/-- Model of `MapperDESY1wl._remove_multiplicative_bias`: divide both ellipticity
components of every row by `one_plus_m`. -/
def DES_remove_multiplicative_bias (Rs : Mat2) (cat : List DESRow) :
    List DESRow :=
  let opm := DES_one_plus_m Rs cat
  cat.map fun r => { r with e1 := r.e1 / opm, e2 := r.e2 / opm }

/-- Model of `MapperDESY1wl.get_catalog` on a loaded catalog: compute `Rs`, keep the
rows of the configured bin (`remove_rows(zbin_mcal != zbin)`), then apply
the additive and multiplicative corrections in that order. -/
def DES_get_catalog (cat : List DESRow) (zbin : ℤ) : List DESRow :=
  let Rs := DES_get_Rs cat zbin
  let cat1 := cat.filter fun r => r.zbin_mcal == zbin
  DES_remove_multiplicative_bias Rs (DES_remove_additive_bias cat1)

/-- A row of a raw HSC field catalog after `_clean_raw_catalog` (the columns
the shear cuts, redshift cut and calibration of `_get_catalog_from_raw`
read).  The `isnull`/NaN bookkeeping of the cleaning stage is floating-point
missing-data machinery with no counterpart in the rational model. -/
structure HSCRaw where
  ishape_flags : Bool
  ishape_sigma : ℚ
  ishape_resolution : ℚ
  ishape_e1 : ℚ
  ishape_e2 : ℚ
  star_center : Bool
  star_any : Bool
  wl_fulldepth_fullcolor : Bool
  pz_best_eab : ℚ
  shape_weight : ℚ
  rms_e : ℚ
  shear_bias_m : ℚ
  shear_bias_c1 : ℚ
  shear_bias_c2 : ℚ
  deriving DecidableEq, Inhabited

/-- A calibrated HSC catalog row (columns kept by `_get_catalog_from_raw`:
`e1`, `e2` and the shape weight). -/
structure HSCCal where
  e1 : ℚ
  e2 : ℚ
  w : ℚ
  deriving DecidableEq, Inhabited

/-- The shear cut of `MapperHSCDR1wl._get_catalog_from_raw`: flags clear,
`sigma ∈ [0, 0.4]`, `resolution ≥ 0.3`, squared shear modulus below the
threshold, no bright-star flags, full-depth-full-color region. -/
def HSC_shear_cut (thr : ℚ) (c : List HSCRaw) : List HSCRaw :=
  c.filter fun r =>
    (!r.ishape_flags) &&
    (decide (0 ≤ r.ishape_sigma) && decide (r.ishape_sigma ≤ 0.4)) &&
    decide ((0.3 : ℚ) ≤ r.ishape_resolution) &&
    decide (r.ishape_e1 ^ 2 + r.ishape_e2 ^ 2 < thr) &&
    (!r.star_center) && (!r.star_any) &&
    r.wl_fulldepth_fullcolor

/-- The redshift-bin cut of `MapperHSCDR1wl._get_catalog_from_raw`:
`(zs <= z_edges[1]) & (zs > z_edges[0])` on `pz_best_eab`. -/
def HSC_zbin_cut (z_edges : ℚ × ℚ) (c : List HSCRaw) : List HSCRaw :=
  c.filter fun r =>
    decide (r.pz_best_eab ≤ z_edges.2) && decide (z_edges.1 < r.pz_best_eab)

/-- The shear calibration of `MapperHSCDR1wl._get_catalog_from_raw`:
weighted mean multiplicative bias `mhat`, responsivity
`resp = 1 - <rms_e^2>_w`, then
`e = (e_raw/(2 resp) - c) / (1 + mhat)` per row and component. -/
def HSC_calibrate (c : List HSCRaw) : List HSCCal :=
  let w := c.map HSCRaw.shape_weight
  let mhat := npaverage (c.map HSCRaw.shear_bias_m) w
  let resp := 1 - npaverage (c.map fun r => r.rms_e ^ 2) w
  c.map fun r =>
    { e1 := (r.ishape_e1 / (2 * resp) - r.shear_bias_c1) / (1 + mhat)
      e2 := (r.ishape_e2 / (2 * resp) - r.shear_bias_c2) / (1 + mhat)
      w := r.shape_weight }

/-- Model of `MapperHSCDR1wl._get_catalog_from_raw`: per HSC field, apply the shear
cut, the redshift-bin cut and the calibration, then stack the fields. -/
def HSC_get_catalog_from_raw (thr : ℚ) (z_edges : ℚ × ℚ)
    (fields : List (List HSCRaw)) : List HSCCal :=
  (fields.map fun f => HSC_calibrate (HSC_zbin_cut z_edges (HSC_shear_cut thr f))).flatten

/-- Model of `_get_ellipticity_maps` (DES) / `_get_ellip_maps` (HSC): accumulate the
two weighted ellipticity maps and divide by the mask on the pixels where
the mask is positive (`we[goodpix] /= mask[goodpix]`; the other pixels keep
the accumulated value). -/
def ellipticity_maps (npix : ℕ) (pix : List ℕ) (w1 w2 mask : List ℚ) :
    List ℚ × List ℚ :=
  let we1 := get_map_from_points npix pix w1
  let we2 := get_map_from_points npix pix w2
  ((List.range npix).map fun p =>
      if 0 < mask.getD p 0 then we1.getD p 0 / mask.getD p 0 else we1.getD p 0,
   (List.range npix).map fun p =>
      if 0 < mask.getD p 0 then we2.getD p 0 / mask.getD p 0 else we2.getD p 0)

/-- Model of `MapperDESY1wl.get_signal_map`: select the mode's ellipticity columns,
compute the weighted ellipticity-over-mask maps, and return
`[-d[0], d[1]]` (sign flip on the first component). -/
def DES_get_signal_map (nside : ℕ) (cat : List DESRow) (pix : List ℕ)
    (mask : List ℚ) (mode : String) : Except String (List (List ℚ)) :=
  match DES_set_mode mode with
  | Except.error e => Except.error e
  | Except.ok (e1f, e2f, _) =>
    let d := ellipticity_maps (nside2npix nside) pix
      (cat.map (DES_col e1f)) (cat.map (DES_col e2f)) mask
    Except.ok [d.1.map Neg.neg, d.2]

/-- Model of `MapperHSCDR1wl.get_signal_map`: weighted ellipticity maps with per-row
weights `e1*w`, `e2*w`, returned as `[d[0], d[1]]` (no sign flip). -/
def HSC_get_signal_map (nside : ℕ) (cat : List HSCCal) (pix : List ℕ)
    (mask : List ℚ) : List (List ℚ) :=
  let d := ellipticity_maps (nside2npix nside) pix
    (cat.map fun r => r.e1 * r.w) (cat.map fun r => r.e2 * r.w) mask
  [d.1, d.2]

/-- Model of `MapperDESY1wl._get_mask`: the unweighted galaxy count map of the
calibrated catalog's positions. -/
def DES_get_mask (nside : ℕ) (pix : List ℕ) : List ℚ :=
  count_map (nside2npix nside) pix

/-- Model of `MapperHSCDR1wl._get_mask`: the shape-weight-weighted galaxy count
map. -/
def HSC_get_mask (nside : ℕ) (pix : List ℕ) (w : List ℚ) : List ℚ :=
  get_map_from_points (nside2npix nside) pix w

/-- Model of `MapperCatWISE._cut_mask`: start from ones, zero the pixels whose
Galactic latitude is below `GLAT_max_deg` in absolute value, then zero the
pixels of every source-mask hole.  The latitude of a pixel centre
(`hp.Rotator` + `hp.pix2ang`) and the pixel list of a hole
(`hp.query_disc`) are external healpy utilities and enter as parameters. -/
def cut_mask (npix : ℕ) (bpix : ℕ → ℚ) (glat_max : ℚ)
    (holes : List (List ℕ)) : List ℚ :=
  (List.range npix).map fun p =>
    if |bpix p| < glat_max ∨ ∃ h ∈ holes, p ∈ h then 0 else 1

/-- Model of `hp.nside2pixarea`: the area of one equal-area pixel, `4π / npix`. -/
noncomputable def nside2pixarea (nside : ℕ) : ℝ :=
  4 * Real.pi / (nside2npix nside)

/-- The `get_nl_coupled` of the shear mappers (DES Y1 and HSC DR1 share this
code): `N_ell = pixarea * sum(w2s2) / npix`, a flat row of length
`3*nside` whose first two multipoles are zeroed, stacked as
`[nl, 0*nl, 0*nl, nl]`. -/
noncomputable def shear_nl_coupled (nside : ℕ) (w2s2 : List ℚ) :
    List (List ℝ) :=
  let N_ell : ℝ := nside2pixarea nside * (w2s2.sum : ℝ) / (nside2npix nside)
  let nl : List ℝ := (List.range (3 * nside)).map fun l =>
    if l < 2 then 0 else N_ell
  [nl, nl.map fun _ => 0, nl.map fun _ => 0, nl]

/-- The `get_nl_coupled` of the density mappers (2MPZ and CatWISE share this
code): `N_mean = np.average(nmap, weights=mask)`,
`N_mean_srad = N_mean * npix / (4π)`, `N_ell = np.mean(mask) / N_mean_srad`,
replicated as a `1 × 3*nside` array. -/
noncomputable def density_nl_coupled (nside : ℕ) (nmap mask : List ℚ) :
    List (List ℝ) :=
  let N_mean : ℚ := npaverage nmap mask
  let N_mean_srad : ℝ := (N_mean : ℝ) * (nside2npix nside) / (4 * Real.pi)
  let N_ell : ℝ := (npmean mask : ℝ) / N_mean_srad
  [(List.range (3 * nside)).map fun _ => N_ell]

/-- Model of `scipy.interpolate.interp1d` with extrapolation, applied
to one point: piecewise-linear interpolation through the tabulated points,
extended beyond the table by the first/last segment (`0` for an empty
table, the constant `y0` for a single-point table). -/
noncomputable def interp1d : List (ℝ × ℝ) → ℝ → ℝ
  | [], _ => 0
  | [(_, y0)], _ => y0
  | (x0, y0) :: (x1, y1) :: rest, x =>
    if x ≤ x1 ∨ rest = [] then y0 + (y1 - y0) * (x - x0) / (x1 - x0)
    else interp1d ((x1, y1) :: rest) x

/-- Model of `MapperCIBLenz._get_custom_beam`: read the tabulated `(ell, window)`
pairs, interpolate `log(window)` linearly in `ell` with extrapolation, and
return `exp` of the interpolant at every integer multipole below
`3*nside`. -/
noncomputable def get_custom_beam (windowfuncs : List (ℝ × ℝ)) (nside : ℕ) :
    List ℝ :=
  (List.range (3 * nside)).map fun (l : ℕ) =>
    Real.exp (interp1d (windowfuncs.map fun q => (q.1, Real.log q.2)) (l : ℝ))

-- END OF DEFINITIONS

end XCell

namespace XCell

-- THEOREMS

theorem getD_range_map {α : Type} (n i : ℕ) (f : ℕ → α) (d : α) (h : i < n) :
    ((List.range n).map f).getD i d = f i := by
  rw [List.getD_eq_getElem _ _ (by simpa using h), List.getElem_map,
    List.getElem_range]

theorem npmean_const (l : List ℚ) (c : ℚ) (hne : l ≠ []) (h : ∀ x ∈ l, x = c) :
    npmean l = c := by
  have hs : l.sum = l.length • c := List.sum_eq_card_nsmul l c h
  have hlen : (l.length : ℚ) ≠ 0 := by
    have h0 : l.length ≠ 0 := by simpa [List.length_eq_zero] using hne
    exact_mod_cast h0
  simp only [npmean, hs, nsmul_eq_mul]
  exact mul_div_cancel_left₀ _ hlen

theorem sum_map_sub_const (l : List ℚ) (c : ℚ) :
    (l.map fun x => x - c).sum = l.sum - l.length * c := by
  induction l with
  | nil => simp
  | cons a t ih =>
    simp only [List.map_cons, List.sum_cons, List.length_cons, ih]
    push_cast
    ring

theorem sum_map_div_const (l : List ℚ) (c : ℚ) :
    (l.map fun x => x / c).sum = l.sum / c := by
  induction l with
  | nil => simp
  | cons a t ih => simp [ih, add_div]

theorem npmean_center (l : List ℚ) :
    npmean (l.map fun x => x - npmean l) = 0 := by
  rcases eq_or_ne l [] with rfl | hne
  · simp [npmean]
  · have hlen : (l.length : ℚ) ≠ 0 := by
      have h0 : l.length ≠ 0 := by simpa [List.length_eq_zero] using hne
      exact_mod_cast h0
    have hz : l.sum - (l.length : ℚ) * (l.sum / l.length) = 0 := by
      field_simp
    simp only [npmean, List.length_map, sum_map_sub_const]
    rw [hz, zero_div]

theorem npmean_map_div_const (l : List ℚ) (c : ℚ) :
    npmean (l.map fun x => x / c) = npmean l / c := by
  simp only [npmean, List.length_map, sum_map_div_const]
  rw [div_right_comm]

theorem map_eq_self_of_id_on {α : Type} (f : α → α) :
    ∀ l : List α, (∀ r ∈ l, f r = r) → l.map f = l := by
  intro l
  induction l with
  | nil => intro _; rfl
  | cons a t ih =>
    intro h
    simp only [List.map_cons]
    rw [h a (List.mem_cons_self a t), ih fun r hr => h r (List.mem_cons_of_mem a hr)]

/-- C2: the selection-response matrix `Rs` holds the symmetric finite
differences of mean ellipticity between the ±1 and ±2 bin-membership
perturbation subsamples divided by `0.02`; `one_plus_m` is
half the trace of `Rg + Rs` with `Rg` the matrix of mean response columns;
the multiplicative step divides both ellipticity components of every row by
`one_plus_m`; and for a catalog with identity mean response and zero
selection response `one_plus_m = 1` and the multiplicative step leaves the
ellipticities unchanged. -/
theorem DES_multiplicative_calibration_spec
    (cat cat2 : List DESRow) (zbin : ℤ) (Rs : Mat2) :
    DES_get_Rs cat zbin =
      { a11 := (npmean ((cat.filter fun r => r.zbin_mcal_1p == zbin).map DESRow.e1)
                - npmean ((cat.filter fun r => r.zbin_mcal_1m == zbin).map DESRow.e1))
                / 0.02
        a12 := (npmean ((cat.filter fun r => r.zbin_mcal_2p == zbin).map DESRow.e1)
                - npmean ((cat.filter fun r => r.zbin_mcal_2m == zbin).map DESRow.e1))
                / 0.02
        a21 := (npmean ((cat.filter fun r => r.zbin_mcal_1p == zbin).map DESRow.e2)
                - npmean ((cat.filter fun r => r.zbin_mcal_1m == zbin).map DESRow.e2))
                / 0.02
        a22 := (npmean ((cat.filter fun r => r.zbin_mcal_2p == zbin).map DESRow.e2)
                - npmean ((cat.filter fun r => r.zbin_mcal_2m == zbin).map DESRow.e2))
                / 0.02 } ∧
    DES_one_plus_m Rs cat2 =
      ((DES_Rg cat2).a11 + Rs.a11 + ((DES_Rg cat2).a22 + Rs.a22)) * 0.5 ∧
    (∀ i, i < cat2.length →
      ((DES_remove_multiplicative_bias Rs cat2).getD i default).e1 =
        (cat2.getD i default).e1 / DES_one_plus_m Rs cat2 ∧
      ((DES_remove_multiplicative_bias Rs cat2).getD i default).e2 =
        (cat2.getD i default).e2 / DES_one_plus_m Rs cat2) ∧
    (cat2 ≠ [] →
      (∀ r ∈ cat2, r.R11 = 1 ∧ r.R12 = 0 ∧ r.R21 = 0 ∧ r.R22 = 1) →
      Rs = ⟨0, 0, 0, 0⟩ →
      DES_one_plus_m Rs cat2 = 1 ∧
      DES_remove_multiplicative_bias Rs cat2 = cat2) := by
  refine ⟨rfl, rfl, ?_, ?_⟩
  · intro i hi
    have hlen : i < (cat2.map fun r =>
        ({ r with e1 := r.e1 / DES_one_plus_m Rs cat2,
                  e2 := r.e2 / DES_one_plus_m Rs cat2 } : DESRow)).length := by
      simpa using hi
    have h1 : (DES_remove_multiplicative_bias Rs cat2).getD i default
        = { cat2.getD i default with
              e1 := (cat2.getD i default).e1 / DES_one_plus_m Rs cat2,
              e2 := (cat2.getD i default).e2 / DES_one_plus_m Rs cat2 } := by
      show (cat2.map fun r =>
          ({ r with e1 := r.e1 / DES_one_plus_m Rs cat2,
                    e2 := r.e2 / DES_one_plus_m Rs cat2 } : DESRow)).getD i default = _
      rw [List.getD_eq_getElem _ _ hlen, List.getElem_map,
          List.getD_eq_getElem _ _ hi]
    rw [h1]
    exact ⟨rfl, rfl⟩
  · intro hne hid hRs
    subst hRs
    have hmapne : ∀ f : DESRow → ℚ, cat2.map f ≠ [] := by
      intro f h
      exact hne (List.map_eq_nil_iff.mp h)
    have e11 : npmean (cat2.map DESRow.R11) = 1 := by
      refine npmean_const _ _ (hmapne _) ?_
      intro x hx
      obtain ⟨r, hr, rfl⟩ := List.mem_map.mp hx
      exact (hid r hr).1
    have e22 : npmean (cat2.map DESRow.R22) = 1 := by
      refine npmean_const _ _ (hmapne _) ?_
      intro x hx
      obtain ⟨r, hr, rfl⟩ := List.mem_map.mp hx
      exact (hid r hr).2.2.2
    have hopm : DES_one_plus_m ⟨0, 0, 0, 0⟩ cat2 = 1 := by
      norm_num [DES_one_plus_m, Mat2.add, DES_Rg, e11, e22]
    refine ⟨hopm, ?_⟩
    have hrow : ∀ r : DESRow,
        ({ r with e1 := r.e1 / DES_one_plus_m ⟨0, 0, 0, 0⟩ cat2,
                  e2 := r.e2 / DES_one_plus_m ⟨0, 0, 0, 0⟩ cat2 } : DESRow) = r := by
      intro r
      cases r
      rw [hopm]
      simp
    exact map_eq_self_of_id_on _ cat2 fun r _ => hrow r

/-- C2 witness: at the one-row catalog with `R = I`, zero selection
response and ellipticities `(3, 5)`, `one_plus_m = 1` and the
multiplicative step is the identity. -/
theorem DES_multiplicative_calibration_spec_witness :
    DES_one_plus_m ⟨0, 0, 0, 0⟩
        [⟨3, 5, 0, 0, 1, 0, 0, 1, 0, 0, 0, 0, 0⟩] = 1 ∧
    DES_remove_multiplicative_bias ⟨0, 0, 0, 0⟩
        [⟨3, 5, 0, 0, 1, 0, 0, 1, 0, 0, 0, 0, 0⟩] =
      [⟨3, 5, 0, 0, 1, 0, 0, 1, 0, 0, 0, 0, 0⟩] :=
  (DES_multiplicative_calibration_spec []
    [⟨3, 5, 0, 0, 1, 0, 0, 1, 0, 0, 0, 0, 0⟩] 0 ⟨0, 0, 0, 0⟩).2.2.2
    (by simp)
    (by
      intro r hr
      rw [List.mem_singleton] at hr
      subst hr
      exact ⟨rfl, rfl, rfl, rfl⟩)
    rfl

theorem DES_mean_after_calibration (Rs : Mat2) (l : List DESRow) :
    npmean ((DES_remove_multiplicative_bias Rs
      (DES_remove_additive_bias l)).map DESRow.e1) = 0 ∧
    npmean ((DES_remove_multiplicative_bias Rs
      (DES_remove_additive_bias l)).map DESRow.e2) = 0 := by
  have hadd1 : (DES_remove_additive_bias l).map DESRow.e1
      = (l.map DESRow.e1).map fun x => x - npmean (l.map DESRow.e1) := by
    simp [DES_remove_additive_bias, List.map_map, Function.comp]
  have hadd2 : (DES_remove_additive_bias l).map DESRow.e2
      = (l.map DESRow.e2).map fun x => x - npmean (l.map DESRow.e2) := by
    simp [DES_remove_additive_bias, List.map_map, Function.comp]
  have hmul1 : (DES_remove_multiplicative_bias Rs
        (DES_remove_additive_bias l)).map DESRow.e1
      = ((DES_remove_additive_bias l).map DESRow.e1).map
          fun x => x / DES_one_plus_m Rs (DES_remove_additive_bias l) := by
    simp [DES_remove_multiplicative_bias, List.map_map, Function.comp]
  have hmul2 : (DES_remove_multiplicative_bias Rs
        (DES_remove_additive_bias l)).map DESRow.e2
      = ((DES_remove_additive_bias l).map DESRow.e2).map
          fun x => x / DES_one_plus_m Rs (DES_remove_additive_bias l) := by
    simp [DES_remove_multiplicative_bias, List.map_map, Function.comp]
  constructor
  · rw [hmul1, npmean_map_div_const, hadd1, npmean_center, zero_div]
  · rw [hmul2, npmean_map_div_const, hadd2, npmean_center, zero_div]

/-- C3 amended: the DES shear mapper's `get_catalog` output has exactly
zero per-bin mean ellipticity in both components (the additive step
subtracts the catalog's own means; dividing by the scalar `one_plus_m`
preserves the zero mean).  The HSC mapper instead subtracts the tabulated
per-object additive terms `c1`, `c2`, which does not zero the catalog
mean. -/
theorem DES_catalog_mean_ellipticity_zero (cat : List DESRow) (zbin : ℤ) :
    npmean ((DES_get_catalog cat zbin).map DESRow.e1) = 0 ∧
    npmean ((DES_get_catalog cat zbin).map DESRow.e2) = 0 := by
  have h := DES_mean_after_calibration (DES_get_Rs cat zbin)
    (cat.filter fun r => r.zbin_mcal == zbin)
  simpa [DES_get_catalog] using h

/-- C3 counterexample: a one-row HSC catalog that passes every cut of
`_get_catalog_from_raw` (weight 1, `rms_e = 1/2`, zero `m`, `c1`, `c2`,
raw `e1 = 1`) calibrates to `e1 = 2/3`, so the catalog returned by
`get_catalog` has nonzero mean ellipticity. -/
theorem HSC_catalog_mean_e1_not_zero :
    npmean ((HSC_get_catalog_from_raw 2 (0, 1)
      [[{ ishape_flags := false, ishape_sigma := 0.1,
          ishape_resolution := 1/2, ishape_e1 := 1, ishape_e2 := 0,
          star_center := false, star_any := false,
          wl_fulldepth_fullcolor := true, pz_best_eab := 1/2,
          shape_weight := 1, rms_e := 1/2, shear_bias_m := 0,
          shear_bias_c1 := 0, shear_bias_c2 := 0 }]]).map HSCCal.e1) ≠ 0 := by
  norm_num [HSC_get_catalog_from_raw, HSC_calibrate, HSC_zbin_cut,
    HSC_shear_cut, npmean, npaverage, List.filter]

/-- C4 amended: for both recognized modes the DES signal map is
`[-d[0], d[1]]`, the first weighted ellipticity-over-mask map with its sign
flipped and the second unchanged; the HSC signal map is `[d[0], d[1]]`
with no sign flip on either component. -/
theorem signal_map_components_spec (nside : ℕ) (cat : List DESRow)
    (hcat : List HSCCal) (pix hpix : List ℕ) (mask hmask : List ℚ)
    (mode e1f e2f m : String)
    (hmode : DES_set_mode mode = Except.ok (e1f, e2f, m)) :
    DES_get_signal_map nside cat pix mask mode =
      Except.ok
        [(ellipticity_maps (nside2npix nside) pix (cat.map (DES_col e1f))
            (cat.map (DES_col e2f)) mask).1.map Neg.neg,
         (ellipticity_maps (nside2npix nside) pix (cat.map (DES_col e1f))
            (cat.map (DES_col e2f)) mask).2] ∧
    HSC_get_signal_map nside hcat hpix hmask =
      [(ellipticity_maps (nside2npix nside) hpix
          (hcat.map fun r => r.e1 * r.w) (hcat.map fun r => r.e2 * r.w)
          hmask).1,
       (ellipticity_maps (nside2npix nside) hpix
          (hcat.map fun r => r.e1 * r.w) (hcat.map fun r => r.e2 * r.w)
          hmask).2] := by
  refine ⟨?_, rfl⟩
  simp [DES_get_signal_map, hmode]

/-- C4 witness: the DES part of the theorem at mode `"shear"` on an empty
catalog. -/
theorem signal_map_components_spec_witness :
    DES_get_signal_map 1 [] [] [] "shear" =
      Except.ok
        [(ellipticity_maps (nside2npix 1) []
            (([] : List DESRow).map (DES_col "e1"))
            (([] : List DESRow).map (DES_col "e2")) []).1.map Neg.neg,
         (ellipticity_maps (nside2npix 1) []
            (([] : List DESRow).map (DES_col "e1"))
            (([] : List DESRow).map (DES_col "e2")) []).2] :=
  (signal_map_components_spec 1 [] [] [] [] [] [] "shear" "e1" "e2" "shear"
    rfl).1

/-- C4 counterexample: at a concrete one-row catalog (`e1 = 1`, weight 1,
full mask) the first component of the HSC signal map is the weighted
ellipticity-over-mask map itself, not its negation: the claim's
`[-e1_map, e2_map]` shape fails for the HSC mapper. -/
theorem HSC_signal_map_not_sign_flipped :
    HSC_get_signal_map 1 [⟨1, 0, 1⟩] [0] (List.replicate 12 1) ≠
      [(ellipticity_maps (nside2npix 1) [0]
          (([⟨1, 0, 1⟩] : List HSCCal).map fun r => r.e1 * r.w)
          (([⟨1, 0, 1⟩] : List HSCCal).map fun r => r.e2 * r.w)
          (List.replicate 12 1)).1.map Neg.neg,
       (ellipticity_maps (nside2npix 1) [0]
          (([⟨1, 0, 1⟩] : List HSCCal).map fun r => r.e1 * r.w)
          (([⟨1, 0, 1⟩] : List HSCCal).map fun r => r.e2 * r.w)
          (List.replicate 12 1)).2] := by
  intro heq
  have h0 := congrArg (fun L : List (List ℚ) => (L.getD 0 []).getD 0 0) heq
  norm_num [HSC_get_signal_map, ellipticity_maps, get_map_from_points,
    nside2npix, List.replicate_succ, List.filter, List.map_map,
    Function.comp, getD_range_map] at h0

/-- C5 counterexample: the DES mask is a galaxy count map, so a catalog
with two rows in pixel 0 yields a mask whose value there is 2, outside
[0, 1]. -/
theorem DES_mask_value_exceeds_one :
    ¬ (∀ x ∈ DES_get_mask 1 [0, 0], 0 ≤ x ∧ x ≤ 1) := by
  intro h
  have hlen : 0 < (DES_get_mask 1 [0, 0]).length := by
    simp [DES_get_mask, count_map, get_map_from_points, nside2npix]
  have hmem : (DES_get_mask 1 [0, 0]).getD 0 0 ∈ DES_get_mask 1 [0, 0] := by
    rw [List.getD_eq_getElem _ _ hlen]
    exact List.getElem_mem hlen
  have h2 : (DES_get_mask 1 [0, 0]).getD 0 0 = 2 := by
    norm_num [DES_get_mask, count_map, get_map_from_points, nside2npix,
      List.filter, getD_range_map]
  have := (h _ hmem).2
  rw [h2] at this
  norm_num at this

/-- C5 amended: the synthesized CatWISE cut mask has every value in [0, 1]
(each pixel holds 0 or 1); the shear mappers' masks are (weighted) galaxy
count maps, nonnegative whenever the weights are nonnegative but not
bounded above by 1. -/
theorem mask_range_spec (npix : ℕ) (bpix : ℕ → ℚ) (glat_max : ℚ)
    (holes : List (List ℕ)) (nside : ℕ) (pix hpix : List ℕ) (w : List ℚ)
    (hw : ∀ x ∈ w, 0 ≤ x) :
    (∀ x ∈ cut_mask npix bpix glat_max holes, 0 ≤ x ∧ x ≤ 1) ∧
    (∀ x ∈ HSC_get_mask nside hpix w, 0 ≤ x) ∧
    (∀ x ∈ DES_get_mask nside pix, 0 ≤ x) := by
  refine ⟨?_, ?_, ?_⟩
  · intro x hx
    simp only [cut_mask, List.mem_map] at hx
    obtain ⟨p, -, rfl⟩ := hx
    split <;> norm_num
  · intro x hx
    simp only [HSC_get_mask, get_map_from_points, List.mem_map] at hx
    obtain ⟨p, -, rfl⟩ := hx
    apply List.sum_nonneg
    intro y hy
    simp only [List.mem_map] at hy
    obtain ⟨q, hq, rfl⟩ := hy
    exact hw _ (List.of_mem_zip (List.mem_of_mem_filter hq)).2
  · intro x hx
    simp only [DES_get_mask, count_map, get_map_from_points,
      List.mem_map] at hx
    obtain ⟨p, -, rfl⟩ := hx
    apply List.sum_nonneg
    intro y hy
    simp only [List.mem_map] at hy
    obtain ⟨q, hq, rfl⟩ := hy
    have h1 :=
      List.eq_of_mem_replicate (List.of_mem_zip (List.mem_of_mem_filter hq)).2
    simp [h1]

/-- C5 witness: the HSC weighted-count-map part of the theorem at a
one-row catalog with weight 1/2. -/
theorem mask_range_spec_witness :
    (0 : ℚ) ≤ (HSC_get_mask 1 [0] [1 / 2]).getD 0 0 := by
  have h := (mask_range_spec 0 (fun _ => 0) 0 [] 1 [0] [0] [1 / 2]
    (by
      intro x hx
      rw [List.mem_singleton] at hx
      subst hx
      norm_num)).2.1
  refine h _ ?_
  have hlen : 0 < (HSC_get_mask 1 [0] [1 / 2]).length := by
    simp [HSC_get_mask, get_map_from_points, nside2npix]
  rw [List.getD_eq_getElem _ _ hlen]
  exact List.getElem_mem hlen

/-- C9: `_get_coords` raises for every value other than `'G'` and `'C'` and
returns the corresponding column-name pair otherwise; `_set_mode` raises
for every mode other than `'shear'` and `'PSF'` and returns the
corresponding column names otherwise. -/
theorem selector_validation_spec (coords mode : String) :
    (coords ≠ "G" → coords ≠ "C" →
      get_coords coords = Except.error ("Unknown coordinates " ++ coords)) ∧
    get_coords "G" = Except.ok ("L", "B") ∧
    get_coords "C" = Except.ok ("SUPRA", "SUPDEC") ∧
    (mode ≠ "shear" → mode ≠ "PSF" →
      DES_set_mode mode = Except.error ("Unknown mode " ++ mode)) ∧
    DES_set_mode "shear" = Except.ok ("e1", "e2", "shear") ∧
    DES_set_mode "PSF" = Except.ok ("psf_e1", "psf_e2", "PSF") := by
  refine ⟨?_, rfl, rfl, ?_, rfl, rfl⟩
  · intro h1 h2
    simp [get_coords, h1, h2]
  · intro h1 h2
    simp [DES_set_mode, h1, h2]

/-- C9 witness: the error branches of both selectors at the unrecognized
values `"X"` and `"Y"`. -/
theorem selector_validation_spec_witness :
    get_coords "X" = Except.error ("Unknown coordinates " ++ "X") ∧
    DES_set_mode "Y" = Except.error ("Unknown mode " ++ "Y") :=
  ⟨(selector_validation_spec "X" "Y").1 (by simp) (by simp),
   (selector_validation_spec "X" "Y").2.2.2.1 (by simp) (by simp)⟩

/-- C10: both redshift-bin cuts select the half-open interval
(z_lo, z_hi]: a row whose redshift equals the lower edge is excluded and a
row whose redshift equals the upper edge is included, in `_bin_z` (2MPZ)
and in the redshift-bin cut of `_get_catalog_from_raw` (HSC). -/
theorem zbin_half_open_spec (z_edges : ℚ × ℚ) (cat : List Row2MPZ)
    (hcat : List HSCRaw) (hlt : z_edges.1 < z_edges.2) :
    (∀ r ∈ cat, r.zphoto = z_edges.1 → r ∉ bin_z z_edges cat) ∧
    (∀ r ∈ cat, r.zphoto = z_edges.2 → r ∈ bin_z z_edges cat) ∧
    (∀ r ∈ hcat, r.pz_best_eab = z_edges.1 → r ∉ HSC_zbin_cut z_edges hcat) ∧
    (∀ r ∈ hcat, r.pz_best_eab = z_edges.2 → r ∈ HSC_zbin_cut z_edges hcat) := by
  refine ⟨?_, ?_, ?_, ?_⟩
  · intro r hr hz hmem
    simp only [bin_z, List.mem_filter] at hmem
    simp [hz] at hmem
  · intro r hr hz
    refine List.mem_filter.mpr ⟨hr, ?_⟩
    simp [hz, hlt]
  · intro r hr hz hmem
    simp only [HSC_zbin_cut, List.mem_filter] at hmem
    simp [hz] at hmem
  · intro r hr hz
    refine List.mem_filter.mpr ⟨hr, ?_⟩
    simp [hz, hlt, le_of_lt hlt]

theorem getD_map_const_zero (L : List ℝ) (l : ℕ) :
    (L.map fun _ => (0 : ℝ)).getD l 0 = 0 := by
  rcases Nat.lt_or_ge l (L.map fun _ => (0 : ℝ)).length with h | h
  · rw [List.getD_eq_getElem _ _ h, List.getElem_map]
  · exact List.getD_eq_default _ _ h

/-- C6: shear-mapper `get_nl_coupled` (shared by DES Y1 and HSC DR1) is a
4-row array of rows of length `3*nside`; rows 1 and 2 are identically
zero; rows 0 and 3 hold the constant `N_ell = pixarea*sum(w2s2)/npix` at
every multipole `2 ≤ l < 3*nside` and zero at the multipoles 0 and 1 below
the spin value. -/
theorem shear_nl_coupled_spec (nside : ℕ) (w2s2 : List ℚ) :
    (shear_nl_coupled nside w2s2).length = 4 ∧
    (∀ row ∈ shear_nl_coupled nside w2s2, row.length = 3 * nside) ∧
    (∀ l, l < 3 * nside →
      ((shear_nl_coupled nside w2s2).getD 1 []).getD l 0 = 0 ∧
      ((shear_nl_coupled nside w2s2).getD 2 []).getD l 0 = 0) ∧
    (∀ l, 2 ≤ l → l < 3 * nside →
      ((shear_nl_coupled nside w2s2).getD 0 []).getD l 0 =
        nside2pixarea nside * (w2s2.sum : ℝ) / (nside2npix nside) ∧
      ((shear_nl_coupled nside w2s2).getD 3 []).getD l 0 =
        nside2pixarea nside * (w2s2.sum : ℝ) / (nside2npix nside)) ∧
    (∀ l, l < 2 → l < 3 * nside →
      ((shear_nl_coupled nside w2s2).getD 0 []).getD l 0 = 0 ∧
      ((shear_nl_coupled nside w2s2).getD 3 []).getD l 0 = 0) := by
  refine ⟨rfl, ?_, ?_, ?_, ?_⟩
  · intro row hrow
    simp only [shear_nl_coupled, List.mem_cons, List.not_mem_nil,
      or_false] at hrow
    rcases hrow with rfl | rfl | rfl | rfl <;> simp
  · intro l hl
    exact ⟨getD_map_const_zero _ l, getD_map_const_zero _ l⟩
  · intro l h2 hl
    have e0 := getD_range_map (3 * nside) l
      (fun j => if j < 2 then (0 : ℝ)
        else nside2pixarea nside * (w2s2.sum : ℝ) / (nside2npix nside)) 0 hl
    constructor
    · calc ((shear_nl_coupled nside w2s2).getD 0 []).getD l 0
          = if l < 2 then (0 : ℝ)
            else nside2pixarea nside * (w2s2.sum : ℝ) / (nside2npix nside) := e0
        _ = nside2pixarea nside * (w2s2.sum : ℝ) / (nside2npix nside) :=
            if_neg (not_lt.mpr h2)
    · calc ((shear_nl_coupled nside w2s2).getD 3 []).getD l 0
          = if l < 2 then (0 : ℝ)
            else nside2pixarea nside * (w2s2.sum : ℝ) / (nside2npix nside) := e0
        _ = nside2pixarea nside * (w2s2.sum : ℝ) / (nside2npix nside) :=
            if_neg (not_lt.mpr h2)
  · intro l h2 hl
    have e0 := getD_range_map (3 * nside) l
      (fun j => if j < 2 then (0 : ℝ)
        else nside2pixarea nside * (w2s2.sum : ℝ) / (nside2npix nside)) 0 hl
    constructor
    · calc ((shear_nl_coupled nside w2s2).getD 0 []).getD l 0
          = if l < 2 then (0 : ℝ)
            else nside2pixarea nside * (w2s2.sum : ℝ) / (nside2npix nside) := e0
        _ = 0 := if_pos h2
    · calc ((shear_nl_coupled nside w2s2).getD 3 []).getD l 0
          = if l < 2 then (0 : ℝ)
            else nside2pixarea nside * (w2s2.sum : ℝ) / (nside2npix nside) := e0
        _ = 0 := if_pos h2

/-- C6 witness: at `nside = 1`, `w2s2 = [1]`, the first row carries
`N_ell` at multipole 2 and the second row is zero there. -/
theorem shear_nl_coupled_spec_witness :
    ((shear_nl_coupled 1 [(1 : ℚ)]).getD 0 []).getD 2 0 =
      nside2pixarea 1 * (([(1 : ℚ)].sum : ℚ) : ℝ) / (nside2npix 1) ∧
    ((shear_nl_coupled 1 [(1 : ℚ)]).getD 1 []).getD 2 0 = 0 :=
  ⟨((shear_nl_coupled_spec 1 [1]).2.2.2.1 2 (le_refl 2) (by norm_num)).1,
   ((shear_nl_coupled_spec 1 [1]).2.2.1 2 (by norm_num)).1⟩

/-- C7: density-mapper `get_nl_coupled` (shared by 2MPZ and CatWISE) is a
1-row array of length `3*nside` whose every entry is
`mean(mask) / N_mean_srad` with `N_mean_srad` the mask-weighted mean count
per pixel times `npix/(4π)`. -/
theorem density_nl_coupled_spec (nside : ℕ) (nmap mask : List ℚ) :
    (density_nl_coupled nside nmap mask).length = 1 ∧
    ((density_nl_coupled nside nmap mask).getD 0 []).length = 3 * nside ∧
    ∀ l, l < 3 * nside →
      ((density_nl_coupled nside nmap mask).getD 0 []).getD l 0 =
        ((npmean mask : ℚ) : ℝ) /
          ((npaverage nmap mask : ℝ) * (nside2npix nside) / (4 * Real.pi)) := by
  refine ⟨rfl, by simp [density_nl_coupled], ?_⟩
  intro l hl
  exact getD_range_map (3 * nside) l
    (fun _ => ((npmean mask : ℚ) : ℝ) /
      ((npaverage nmap mask : ℝ) * (nside2npix nside) / (4 * Real.pi))) 0 hl

/-- C7 witness: the flat shot-noise entry at multipole 0 for `nside = 1`,
count map `[2]`, mask `[1]`. -/
theorem density_nl_coupled_spec_witness :
    ((density_nl_coupled 1 [2] [1]).getD 0 []).getD 0 0 =
      ((npmean [1] : ℚ) : ℝ) /
        ((npaverage [2] [1] : ℝ) * (nside2npix 1) / (4 * Real.pi)) :=
  (density_nl_coupled_spec 1 [2] [1]).2.2 0 (by norm_num)

theorem chain'_lt_head : ∀ (t : List (ℝ × ℝ)) (b q : ℝ × ℝ),
    ((b :: t).Chain' fun a c => a.1 < c.1) → q ∈ t → b.1 < q.1 := by
  intro t
  induction t with
  | nil =>
    intro b q _ hq
    exact absurd hq (List.not_mem_nil _)
  | cons c t3 ih =>
    intro b q hs hq
    have hbc : b.1 < c.1 := (List.chain'_cons.mp hs).1
    rcases List.mem_cons.mp hq with rfl | hq3
    · exact hbc
    · exact hbc.trans (ih c q (List.chain'_cons.mp hs).2 hq3)

theorem interp1d_node : ∀ (l : List (ℝ × ℝ)),
    (l.Chain' fun a b => a.1 < b.1) → ∀ x y, (x, y) ∈ l →
      interp1d l x = y := by
  intro l
  induction l with
  | nil =>
    intro _ x y h
    exact absurd h (List.not_mem_nil _)
  | cons a t ih =>
    intro hs x y hmem
    cases t with
    | nil =>
      rw [List.mem_singleton] at hmem
      rw [← hmem]
      rfl
    | cons b t2 =>
      obtain ⟨a1, a2⟩ := a
      obtain ⟨b1, b2⟩ := b
      have hab : a1 < b1 := (List.chain'_cons.mp hs).1
      rcases List.mem_cons.mp hmem with h | hmem2
      · rw [Prod.mk.injEq] at h
        obtain ⟨rfl, rfl⟩ := h
        simp only [interp1d]
        rw [if_pos (Or.inl hab.le)]
        simp
      · rcases List.mem_cons.mp hmem2 with h | hmem3
        · rw [Prod.mk.injEq] at h
          obtain ⟨rfl, rfl⟩ := h
          simp only [interp1d]
          rw [if_pos (Or.inl le_rfl)]
          have hne : x - a1 ≠ 0 := sub_ne_zero.mpr (ne_of_gt hab)
          rw [mul_div_assoc, div_self hne, mul_one]
          ring
        · have hbx : b1 < x := by
            simpa using chain'_lt_head t2 (b1, b2) (x, y)
              (List.chain'_cons.mp hs).2 hmem3
          have ht2 : t2 ≠ [] := by
            intro h0
            rw [h0] at hmem3
            exact absurd hmem3 (List.not_mem_nil _)
          simp only [interp1d]
          rw [if_neg (not_or.mpr ⟨not_le.mpr hbx, ht2⟩)]
          exact ih (List.chain'_cons.mp hs).2 x y hmem2

/-- C8: the CIB custom beam is `exp` of the log-linear interpolant of the
tabulated window, evaluated at the integer multipoles below `3*nside`; at
a tabulated multipole with positive tabulated window value the beam equals
that value. -/
theorem custom_beam_tabulated_spec (windowfuncs : List (ℝ × ℝ))
    (nside n : ℕ) (w : ℝ)
    (hsort : windowfuncs.Chain' fun a b => a.1 < b.1)
    (hw : 0 < w) (hmem : ((n : ℝ), w) ∈ windowfuncs) (hn : n < 3 * nside) :
    (get_custom_beam windowfuncs nside).getD n 0 = w := by
  have e0 := getD_range_map (3 * nside) n
    (fun l => Real.exp
      (interp1d (windowfuncs.map fun q => (q.1, Real.log q.2)) (l : ℝ))) 0 hn
  have hmem' : ((n : ℝ), Real.log w) ∈
      windowfuncs.map fun q => (q.1, Real.log q.2) :=
    List.mem_map.mpr ⟨((n : ℝ), w), hmem, rfl⟩
  have hsort' : (windowfuncs.map fun q => (q.1, Real.log q.2)).Chain'
      fun a b => a.1 < b.1 := by
    rw [List.chain'_map]
    exact hsort
  have e1 : (get_custom_beam windowfuncs nside).getD n 0 =
      Real.exp
        (interp1d (windowfuncs.map fun q => (q.1, Real.log q.2)) (n : ℝ)) := by
    simpa [get_custom_beam] using e0
  rw [e1, interp1d_node _ hsort' _ _ hmem']
  exact Real.exp_log hw

/-- C8 witness: the beam of the table `[(0, 2), (2, 3)]` at `nside = 1`
returns the tabulated value 2 at multipole 0. -/
theorem custom_beam_tabulated_spec_witness :
    (0 : ℝ) < 2 ∧ (get_custom_beam [((0 : ℝ), 2), ((2 : ℝ), 3)] 1).getD 0 0 = 2 :=
  ⟨by norm_num,
   custom_beam_tabulated_spec [((0 : ℝ), 2), ((2 : ℝ), 3)] 1 0 2
     (by norm_num [List.chain'_cons]) (by norm_num) (by simp) (by norm_num)⟩

/-- C10 witness: with edges (0, 1/2), the 2MPZ row at redshift 0 is
dropped and the row at redshift 1/2 is kept. -/
theorem zbin_half_open_spec_witness :
    (⟨0, 0⟩ : Row2MPZ) ∉ bin_z (0, 1 / 2) [⟨0, 0⟩, ⟨1 / 2, 0⟩] ∧
    (⟨1 / 2, 0⟩ : Row2MPZ) ∈ bin_z (0, 1 / 2) [⟨0, 0⟩, ⟨1 / 2, 0⟩] :=
  ⟨(zbin_half_open_spec (0, 1 / 2) [⟨0, 0⟩, ⟨1 / 2, 0⟩] [] (by norm_num)).1
      ⟨0, 0⟩ (by simp) rfl,
   (zbin_half_open_spec (0, 1 / 2) [⟨0, 0⟩, ⟨1 / 2, 0⟩] [] (by norm_num)).2.1
      ⟨1 / 2, 0⟩ (by simp) rfl⟩

/-- C1: the density-mapper signal map is a one-element list holding a map of
length `12*nside^2` equal to `n/(mean_n*mask) - 1` on pixels with positive
mask and `0` on the others, with `mean_n` the mask-weighted average of the
count map `n`. -/
theorem density_signal_map_spec (nside : ℕ) (pix : List ℕ) (mask : List ℚ) :
    (density_get_signal_map nside pix mask).length = 1 ∧
    ∀ d, d ∈ density_get_signal_map nside pix mask →
      d.length = 12 * nside ^ 2 ∧
      (∀ p, p < 12 * nside ^ 2 → 0 < mask.getD p 0 →
        d.getD p 0 =
          (count_map (nside2npix nside) pix).getD p 0 /
            (npaverage (count_map (nside2npix nside) pix) mask *
              mask.getD p 0) - 1) ∧
      (∀ p, p < 12 * nside ^ 2 → mask.getD p 0 ≤ 0 → d.getD p 0 = 0) := by
  refine ⟨rfl, ?_⟩
  intro d hd
  have hd' : d = density_delta_map (nside2npix nside)
      (count_map (nside2npix nside) pix) mask := by
    simpa [density_get_signal_map] using hd
  subst hd'
  refine ⟨?_, ?_, ?_⟩
  · simp [density_delta_map, nside2npix]
  · intro p hp hmask
    have hp' : p < nside2npix nside := by simpa [nside2npix] using hp
    have : (density_delta_map (nside2npix nside)
        (count_map (nside2npix nside) pix) mask).getD p 0 =
        if 0 < mask.getD p 0 then
          (count_map (nside2npix nside) pix).getD p 0 /
            (npaverage (count_map (nside2npix nside) pix) mask *
              mask.getD p 0) - 1
        else 0 := by
      simp [density_delta_map, List.getD_eq_getElem?_getD, hp']
    rw [this, if_pos hmask]
  · intro p hp hmask
    have hp' : p < nside2npix nside := by simpa [nside2npix] using hp
    have hne : ¬ 0 < mask.getD p 0 := not_lt.mpr hmask
    have : (density_delta_map (nside2npix nside)
        (count_map (nside2npix nside) pix) mask).getD p 0 =
        if 0 < mask.getD p 0 then
          (count_map (nside2npix nside) pix).getD p 0 /
            (npaverage (count_map (nside2npix nside) pix) mask *
              mask.getD p 0) - 1
        else 0 := by
      simp [density_delta_map, List.getD_eq_getElem?_getD, hp']
    rw [this, if_neg hne]

/-- C1 witness: the theorem applied at a concrete catalog and mask at
`nside = 1`. -/
theorem density_signal_map_spec_witness :
    (0 : ℚ) < ([(1 : ℚ), 1, 0, 1, 1, 1, 1, 1, 1, 1, 1, 1].getD 0 0) ∧
    ∀ d, d ∈ density_get_signal_map 1 [0, 0, 3]
        [(1 : ℚ), 1, 0, 1, 1, 1, 1, 1, 1, 1, 1, 1] →
      d.getD 0 0 =
        (count_map (nside2npix 1) [0, 0, 3]).getD 0 0 /
          (npaverage (count_map (nside2npix 1) [0, 0, 3])
            [(1 : ℚ), 1, 0, 1, 1, 1, 1, 1, 1, 1, 1, 1] *
            ([(1 : ℚ), 1, 0, 1, 1, 1, 1, 1, 1, 1, 1, 1].getD 0 0)) - 1 := by
  refine ⟨by norm_num, ?_⟩
  intro d hd
  exact ((density_signal_map_spec 1 [0, 0, 3]
    [(1 : ℚ), 1, 0, 1, 1, 1, 1, 1, 1, 1, 1, 1]).2 d hd).2.1 0 (by norm_num)
    (by norm_num)

end XCell
